import Mathlib

/-!
Verification of the Structural Gap Detection Engine
(`backend/python/gap_analyzer.py` of the ReallyNicca repository).

The Python source is shallowly embedded below. Conventions:
* node identifiers and community identifiers are `ℕ`;
* Python floats are modelled exactly as rationals `ℚ`;
* Python dictionaries are modelled as association lists in insertion order;
* Python `list.sort` (Timsort, stable) is modelled by a stable insertion
  sort `sortLe`;
* CPython iteration over a `set` of small non-negative integers (the
  community ids produced by the program are `0, 1, 2, …`) visits them in
  increasing order; `pySetAsc` models this;
* code that can raise an exception is modelled with `Option`/`Except`,
  `none`/`.error` marking the raise;
* the two optional libraries (python-louvain, sentence-transformers) are
  modelled as injected collaborators with an availability flag, matching
  `COMMUNITY_AVAILABLE` / `SEMANTIC_AVAILABLE` in the source.
-/

unseal Rat.add Rat.mul Rat.inv Rat.sub

namespace GapAnalyzer

/-- Stable insertion of `x` into `l`: `x` is placed in front of the first
element `y` with `le x y`.  Models the placement discipline of a stable sort. -/
def insLe (le : α → α → Bool) (x : α) : List α → List α
  | [] => [x]
  | y :: ys => if le x y then x :: y :: ys else y :: insLe le x ys

/-- Stable sort: models Python's stable `list.sort`.  `le a b` means
"`a` may come before `b`"; for `list.sort(key=k, reverse=True)` take
`le a b := (k b ≤ k a)`. -/
def sortLe (le : α → α → Bool) : List α → List α
  | [] => []
  | x :: xs => insLe le x (sortLe le xs)

/-- Models CPython iteration over `set(l)` for small non-negative integer
elements (community ids are `0, 1, 2, …`): the distinct values in
increasing order. -/
def pySetAsc (l : List ℕ) : List ℕ :=
  sortLe (fun a b => a ≤ b) l.dedup

/-- Fail-fast effect-free traversal: models running `f` over a list inside
Python code where `none` is an exception aborting the whole computation. -/
def optMapM (f : α → Option β) : List α → Option (List β)
  | [] => some []
  | x :: xs =>
    match f x, optMapM f xs with
    | some y, some ys => some (y :: ys)
    | _, _ => none

/-- An entry of the input node list: `{"id": …, "label": …, "type": …}`;
the `type` key is optional (`node.get('type', 'UNKNOWN')`). -/
structure InputNode where
  id : ℕ
  label : String
  type : Option String
deriving DecidableEq

/-- An entry of the input edge list: `{"from": …, "to": …, "label": …}`;
the `label` key is optional (`edge.get('label', 'related')`). -/
structure InputEdge where
  fromId : ℕ
  toId : ℕ
  label : Option String
deriving DecidableEq

/-- A node stored in the `networkx` graph, with its attribute dictionary.
A node inserted implicitly by `add_edge` has no `label`/`type` attribute
(`none`); reading a missing attribute is a `KeyError`. -/
structure PyNode where
  id : ℕ
  label : Option String
  type : Option String
deriving DecidableEq

/-- An edge stored in the `networkx` graph (undirected, kept as inserted). -/
structure PyEdge where
  u : ℕ
  v : ℕ
  label : String
deriving DecidableEq

/-- The subset of `networkx.Graph` state the program uses: node list with
attributes and edge list, both in insertion order.  `nx.Graph` is simple:
`add_node` / `add_edge` never create duplicates. -/
structure PyGraph where
  nodes : List PyNode
  edges : List PyEdge
deriving DecidableEq

/-- `n in G.nodes`. -/
def PyGraph.hasNode (G : PyGraph) (n : ℕ) : Bool :=
  G.nodes.any (fun p => p.id = n)

/-- `G.nodes[n]['label']`: `none` when the node is absent or has no
`label` attribute (Python raises `KeyError` there). -/
def PyGraph.nodeLabel (G : PyGraph) (n : ℕ) : Option String :=
  match G.nodes.find? (fun p => p.id = n) with
  | some p => p.label
  | none => none

/-- Whether stored edge `e` joins `a` and `b` (undirected). -/
def edgeMatches (e : PyEdge) (a b : ℕ) : Bool :=
  (e.u = a && e.v = b) || (e.u = b && e.v = a)

/-- `G.has_edge(a, b)` over an explicit edge list. -/
def hasEdgeL (E : List PyEdge) (a b : ℕ) : Bool :=
  E.any (fun e => edgeMatches e a b)

/-- `G.has_edge(a, b)`. -/
def PyGraph.hasEdge (G : PyGraph) (a b : ℕ) : Bool :=
  hasEdgeL G.edges a b

/-- The neighbors of `x` (other endpoints of incident edges). -/
def PyGraph.neighbors (G : PyGraph) (x : ℕ) : List ℕ :=
  G.edges.filterMap (fun e =>
    if e.u = x then some e.v else if e.v = x then some e.u else none)

/-- `G.add_node(id, label=…, type=…)`: inserts the node or, when already
present, overwrites its attributes (networkx semantics). -/
def addNode (G : PyGraph) (n : ℕ) (lab ty : Option String) : PyGraph :=
  if G.hasNode n then
    { G with nodes := G.nodes.map (fun p =>
        if p.id = n then { p with label := lab, type := ty } else p) }
  else
    { G with nodes := G.nodes ++ [⟨n, lab, ty⟩] }

/-- The implicit node insertion performed by `add_edge` for an endpoint
that is not yet a node: inserted with an empty attribute dictionary,
existing nodes untouched. -/
def addNodeBare (G : PyGraph) (n : ℕ) : PyGraph :=
  if G.hasNode n then G else { G with nodes := G.nodes ++ [⟨n, none, none⟩] }

/-- `G.add_edge(a, b, label=…)`: silently inserts missing endpoints as
attribute-less nodes; inserts the edge, or updates its `label` attribute
when the (undirected) edge already exists. -/
def addEdge (G : PyGraph) (a b : ℕ) (lab : String) : PyGraph :=
  let G1 := addNodeBare (addNodeBare G a) b
  if G1.hasEdge a b then
    { G1 with edges := G1.edges.map (fun e =>
        if edgeMatches e a b then { e with label := lab } else e) }
  else
    { G1 with edges := G1.edges ++ [⟨a, b, lab⟩] }

/-- `build_networkx_graph(nodes, edges)` (source lines 27–37): add every
input node with its attributes, then every input edge.  There is no
validation step: an edge endpoint absent from the node list is silently
added by `add_edge`. -/
def build_networkx_graph (nodes : List InputNode) (edges : List InputEdge) : PyGraph :=
  let G := nodes.foldl
    (fun G n => addNode G n.id (some n.label) (some (n.type.getD "UNKNOWN"))) ⟨[], []⟩
  edges.foldl (fun G e => addEdge G e.fromId e.toId (e.label.getD "related")) G

/-- Whether some edge of the input references a node id absent from the
input node list (the condition the specification calls malformed input). -/
def edgeRefsUnknown (nodes : List InputNode) (edges : List InputEdge) : Bool :=
  edges.any (fun e =>
    !(nodes.any (fun n => n.id = e.fromId)) || !(nodes.any (fun n => n.id = e.toId)))

/-- Whether two stored edges are equal as undirected (unordered) pairs. -/
def sameUnordered (e e' : PyEdge) : Bool :=
  (e.u = e'.u && e.v = e'.v) || (e.u = e'.v && e.v = e'.u)

/-- Graph invariant maintained by `nx.Graph`: no two stored edges join the
same unordered pair of endpoints. -/
def edgesWellFormed : List PyEdge → Bool
  | [] => true
  | e :: es => es.all (fun e' => !sameUnordered e e') && edgesWellFormed es

/-- `count_edges_between(G, nodes_c1, nodes_c2)` (source lines 51–58):
the literal double loop, counting pairs `(n1, n2)` with `G.has_edge(n1, n2)`. -/
def count_edges_between (G : PyGraph) (nodes_c1 nodes_c2 : List ℕ) : ℕ :=
  (nodes_c1.map (fun n1 => nodes_c2.countP (fun n2 => G.hasEdge n1 n2))).sum

/-- The specification's definition of `inter_edges`: "the number of graph
edges with one endpoint in each community". -/
def cross_edge_count (G : PyGraph) (A B : List ℕ) : ℕ :=
  G.edges.countP (fun e =>
    (A.contains e.u && B.contains e.v) || (B.contains e.u && A.contains e.v))

/-- `get_cluster_keywords(G, community_nodes, top_n)` (source lines 60–63):
labels of the member nodes present in the graph, truncated to `top_n`.
Reading `G.nodes[node]['label']` of a node without a `label` attribute is a
`KeyError` (`none`), which aborts the caller. -/
def get_cluster_keywords (G : PyGraph) (community_nodes : List ℕ) (top_n : ℕ) :
    Option (List String) :=
  (optMapM (fun n => G.nodeLabel n) (community_nodes.filter (fun n => G.hasNode n))).map
    (fun labels => labels.take top_n)

/-- The injected semantic-distance collaborator: `SEMANTIC_AVAILABLE`
together with the body of the `try:` block of
`calculate_semantic_distance` (the sentence-transformers model), which may
raise (`.error`). -/
structure SemanticScorer where
  available : Bool
  score : List String → List String → Except String ℚ

/-- `calculate_semantic_distance(cluster_1_keywords, cluster_2_keywords)`
(source lines 65–85): default `0.5` when the library is unavailable or
either keyword list is empty; any exception from the scorer is caught and
also yields `0.5`. -/
def calculate_semantic_distance (S : SemanticScorer) (kw1 kw2 : List String) : ℚ :=
  if !S.available || kw1.isEmpty || kw2.isEmpty then 1/2
  else
    match S.score kw1 kw2 with
    | .ok d => d
    | .error _ => 1/2

/-- The sorted candidate list built inside `find_bridge_nodes` (source
lines 89–91): the centrality table restricted to `set(nodes_c1 + nodes_c2)`,
stably sorted by score descending. -/
def bridge_candidates (betweenness : List (ℕ × ℚ)) (nodes_c1 nodes_c2 : List ℕ) :
    List (ℕ × ℚ) :=
  sortLe (fun a b => b.2 ≤ a.2)
    (betweenness.filter (fun p => (nodes_c1 ++ nodes_c2).contains p.1))

/-- `find_bridge_nodes(betweenness, nodes_c1, nodes_c2, top_n)` (source
lines 87–92). -/
def find_bridge_nodes (betweenness : List (ℕ × ℚ)) (nodes_c1 nodes_c2 : List ℕ)
    (top_n : ℕ) : List ℕ :=
  ((bridge_candidates betweenness nodes_c1 nodes_c2).take top_n).map (fun p => p.1)

/-- The bridge finder as worded by the specification (§4.5): sort
descending by score and break ties by ascending node id. -/
def find_bridge_nodes_specOrder (betweenness : List (ℕ × ℚ)) (nodes_c1 nodes_c2 : List ℕ)
    (top_n : ℕ) : List ℕ :=
  ((sortLe (fun a b => b.2 < a.2 || (a.2 = b.2 && a.1 ≤ b.1))
      (betweenness.filter (fun p => (nodes_c1 ++ nodes_c2).contains p.1))).take top_n).map
    (fun p => p.1)

/-- Breadth-first traversal step for `nx.connected_components`: one queue
element is consumed per unit of fuel; newly discovered neighbors are
appended to queue and visited set. -/
def ccBfs (G : PyGraph) : ℕ → List ℕ → List ℕ → List ℕ
  | 0, _, visited => visited
  | _ + 1, [], visited => visited
  | fuel + 1, x :: queue, visited =>
    let fresh := (G.neighbors x).filter (fun m => !visited.contains m)
    ccBfs G fuel (queue ++ fresh) (visited ++ fresh)

/-- The connected component of `n` as a breadth-first reachable set.
The fuel bounds the number of dequeue steps; every enqueued id is an edge
endpoint or `n` itself and is enqueued at most once, so the bound is ample. -/
def reach (G : PyGraph) (n : ℕ) : List ℕ :=
  ccBfs G (G.nodes.length + 2 * G.edges.length + 1) [n] [n]

/-- `nx.connected_components(G)`: iterate over the graph's nodes and start
a traversal at every node not already covered by an earlier component. -/
def connected_components (G : PyGraph) : List (List ℕ) :=
  (G.nodes.map (fun p => p.id)).foldl
    (fun comps n => if comps.any (fun c => c.contains n) then comps else comps ++ [reach G n])
    []

/-- The fallback partition of `detect_communities` (source line 47):
`{node: idx for idx, component in enumerate(nx.connected_components(G)) for node in component}`,
as an association list in insertion order. -/
def connected_component_partition (G : PyGraph) : List (ℕ × ℕ) :=
  ((connected_components G).enum).flatMap (fun ic => ic.2.map (fun n => (n, ic.1)))

/-- The primary community-detection collaborator: `COMMUNITY_AVAILABLE`
together with `community_louvain.best_partition`, which may raise. -/
structure CommunityDetector where
  available : Bool
  best_partition : PyGraph → Except String (List (ℕ × ℕ))

/-- `detect_communities(G)` (source lines 43–49): the connected-component
fallback is used only when the louvain import failed; an exception raised
by `best_partition` itself propagates to the caller. -/
def detect_communities (C : CommunityDetector) (G : PyGraph) :
    Except String (List (ℕ × ℕ)) :=
  if !C.available then .ok (connected_component_partition G)
  else C.best_partition G

/-- Modelled from the spec: `nx.betweenness_centrality`'s breadth-first
phase (§4.2, Brandes), absent from `src/` (it lives in the networkx
library).  For a source `s` it records, per node, the BFS distance and the
number of shortest paths from `s` (`sigma`), and returns the nodes in BFS
discovery order.  State: fuel, queue, distance table, sigma table, order. -/
def brandesBfs (G : PyGraph) :
    ℕ → List ℕ → List (ℕ × ℕ) → List (ℕ × ℕ) → List ℕ →
    List ℕ × List (ℕ × ℕ) × List (ℕ × ℕ)
  | 0, _, dist, sigma, order => (order, dist, sigma)
  | _ + 1, [], dist, sigma, order => (order, dist, sigma)
  | fuel + 1, x :: queue, dist, sigma, order =>
    let dx := (dist.lookup x).getD 0
    let sx := (sigma.lookup x).getD 0
    let st := (G.neighbors x).foldl
      (fun st w =>
        match st.1.lookup w with
        | none => (st.1 ++ [(w, dx + 1)], st.2.1 ++ [(w, sx)], st.2.2 ++ [w])
        | some dw =>
          if dw = dx + 1 then
            (st.1, st.2.1.map (fun p => if p.1 = w then (p.1, p.2 + sx) else p), st.2.2)
          else st)
      (dist, sigma, ([] : List ℕ))
    brandesBfs G fuel (queue ++ st.2.2) st.1 st.2.1 (order ++ [x])

/-- Modelled from the spec: one Brandes source traversal (§4.2): BFS order,
distance table and shortest-path counts from `s`. -/
def brandesFromSource (G : PyGraph) (s : ℕ) :
    List ℕ × List (ℕ × ℕ) × List (ℕ × ℕ) :=
  brandesBfs G (G.nodes.length + 2 * G.edges.length + 1) [s] [(s, 0)] [(s, 1)] []

/-- Modelled from the spec: the dependency accumulation of §4.2.  Nodes are
processed in reverse BFS order; `v` is a predecessor of `w` iff they are
adjacent and `dist w = dist v + 1`;
`delta[v] = Σ over successors w of (sigma[v]/sigma[w]) * (1 + delta[w])`. -/
def accumulateDeltas (G : PyGraph) (order : List ℕ) (dist sigma : List (ℕ × ℕ)) :
    List (ℕ × ℚ) :=
  order.reverse.foldl
    (fun delta v =>
      let dv := (dist.lookup v).getD 0
      let sv : ℚ := ((sigma.lookup v).getD 0 : ℕ)
      let dsum := (G.neighbors v).foldl
        (fun acc w =>
          if dist.lookup w = some (dv + 1) then
            let sw : ℚ := ((sigma.lookup w).getD 0 : ℕ)
            let dw := (delta.lookup w).getD 0
            acc + sv / sw * (1 + dw)
          else acc)
        0
      delta ++ [(v, dsum)])
    []

/-- Modelled from the spec: `calculate_betweenness_centrality(G)` (source
lines 39–41) delegates to `nx.betweenness_centrality`, absent from `src/`;
§4.2: accumulate `delta` over all sources (excluding `v = s`), divide by 2,
and — normalization being enabled — by `(n-1)(n-2)`, with all scores 0 when
`n < 3`. -/
def calculate_betweenness_centrality (G : PyGraph) : List (ℕ × ℚ) :=
  let ids := G.nodes.map (fun p => p.id)
  let n := G.nodes.length
  if n < 3 then ids.map (fun v => (v, 0))
  else
    ids.map (fun v =>
      let raw := ids.foldl
        (fun acc s =>
          if s = v then acc
          else
            let bfs := brandesFromSource G s
            acc + ((accumulateDeltas G bfs.1 bfs.2.1 bfs.2.2).lookup v).getD 0)
        0
      (v, raw / 2 / (((n : ℚ) - 1) * ((n : ℚ) - 2))))

/-- A gap record as appended by `find_structural_gaps` (source lines
135–148). -/
structure Gap where
  community_1 : ℕ
  community_2 : ℕ
  nodes_1 : List ℕ
  nodes_2 : List ℕ
  cluster_1_keywords : List String
  cluster_2_keywords : List String
  gap_score : ℚ
  connectivity : ℚ
  semantic_distance : ℚ
  potential_connections : ℕ
  cluster_size : ℕ
  bridge_nodes : List ℕ
deriving DecidableEq

/-- `[n for n, c in communities.items() if c == cid]`. -/
def community_members (communities : List (ℕ × ℕ)) (cid : ℕ) : List ℕ :=
  (communities.filter (fun p => p.2 = cid)).map (fun p => p.1)

/-- One iteration of the pair loop of `find_structural_gaps` (source lines
104–148) for a pair `c1 < c2`: `some []` when the pair is skipped (small
cluster or connectivity ≥ 0.2), `some [gap]` when a gap is emitted, `none`
when `get_cluster_keywords` raises a `KeyError`. -/
def gapForPair (S : SemanticScorer) (G : PyGraph) (communities : List (ℕ × ℕ))
    (betweenness : List (ℕ × ℚ)) (min_cluster_size : ℕ) (c1 c2 : ℕ) :
    Option (List Gap) :=
  let nodes_c1 := community_members communities c1
  let nodes_c2 := community_members communities c2
  if nodes_c1.length < min_cluster_size || nodes_c2.length < min_cluster_size then
    some []
  else
    let inter_edges := count_edges_between G nodes_c1 nodes_c2
    let max_possible_edges := nodes_c1.length * nodes_c2.length
    let connectivity : ℚ :=
      if 0 < max_possible_edges then (inter_edges : ℚ) / (max_possible_edges : ℚ) else 0
    match get_cluster_keywords G nodes_c1 5, get_cluster_keywords G nodes_c2 5 with
    | some cluster_1_keywords, some cluster_2_keywords =>
      let semantic_distance := calculate_semantic_distance S cluster_1_keywords cluster_2_keywords
      let cluster_size_score : ℚ := ((nodes_c1.length * nodes_c2.length : ℕ) : ℚ)
      let gap_score := cluster_size_score * (1 - connectivity) * (1 + semantic_distance)
      if connectivity < 1/5 then
        some [{ community_1 := c1
                community_2 := c2
                nodes_1 := nodes_c1
                nodes_2 := nodes_c2
                cluster_1_keywords := cluster_1_keywords
                cluster_2_keywords := cluster_2_keywords
                gap_score := gap_score
                connectivity := connectivity
                semantic_distance := semantic_distance
                potential_connections := inter_edges
                cluster_size := nodes_c1.length + nodes_c2.length
                bridge_nodes := find_bridge_nodes betweenness nodes_c1 nodes_c2 3 }]
      else some []
    | _, _ => none

/-- The ordered pairs `(c1, c2)`, `c1 < c2`, visited by the nested loops of
`find_structural_gaps` (source lines 97–102) over
`community_ids = set(communities.values())`. -/
def communityPairs (communities : List (ℕ × ℕ)) : List (ℕ × ℕ) :=
  let ids := pySetAsc (communities.map (fun p => p.2))
  ids.flatMap (fun c1 => (ids.filter (fun c2 => c1 < c2)).map (fun c2 => (c1, c2)))

/-- `find_structural_gaps(G, communities, betweenness, min_cluster_size,
max_gaps)` (source lines 94–152): the pair loop, then the stable sort by
`gap_score` descending, then truncation to `max_gaps`; `none` models an
uncaught `KeyError`. -/
def find_structural_gaps (S : SemanticScorer) (G : PyGraph)
    (communities : List (ℕ × ℕ)) (betweenness : List (ℕ × ℚ))
    (min_cluster_size max_gaps : ℕ) : Option (List Gap) :=
  (optMapM (fun p => gapForPair S G communities betweenness min_cluster_size p.1 p.2)
      (communityPairs communities)).map
    (fun gapLists =>
      (sortLe (fun a b => b.gap_score ≤ a.gap_score) gapLists.flatten).take max_gaps)

/-- The insight dictionary built by `generate_gap_insights` (source lines
154–180). -/
structure Insight where
  title : String
  description : String
  significance : String
  cluster_1_keywords : List String
  cluster_2_keywords : List String
  bridge_suggestion : String
  gap_score : ℚ
  semantic_distance : ℚ
  potential_connections : ℕ
  bridge_nodes : List String
deriving DecidableEq

/-- `generate_gap_insights(gap, G)` (source lines 154–180).  The accesses
`c1_keywords[0]` / `c2_keywords[0]` raise `IndexError` on an empty list,
and `G.nodes[n]['label']` for a bridge node without a `label` attribute
raises `KeyError`; both are modelled by `none`. -/
def generate_gap_insights (gap : Gap) (G : PyGraph) : Option Insight :=
  match gap.cluster_1_keywords.head?, gap.cluster_2_keywords.head?,
      optMapM (fun n => G.nodeLabel n) (gap.bridge_nodes.filter (fun n => G.hasNode n)) with
  | some k1, some k2, some bridgeLabels =>
    let significance :=
      if 100 < gap.gap_score then "High"
      else if 50 < gap.gap_score then "Medium"
      else "Low"
    let n1 := toString gap.nodes_1.length
    let n2 := toString gap.nodes_2.length
    let pct := toString (gap.connectivity * 100).floor
    some { title := s!"Gap between \x27{k1}\x27 and \x27{k2}\x27 clusters"
           description := s!"Found {n1} concepts related to {k1} and {n2} concepts related to {k2}, but only {pct}% connectivity."
           significance := significance
           cluster_1_keywords := gap.cluster_1_keywords
           cluster_2_keywords := gap.cluster_2_keywords
           bridge_suggestion := s!"Explore: How does {k1} relate to {k2}?"
           gap_score := gap.gap_score
           semantic_distance := gap.semantic_distance
           potential_connections := gap.potential_connections
           bridge_nodes := bridgeLabels }
  | _, _, _ => none

/-- The environment `main` runs in: which optional libraries imported
successfully and what their calls do. -/
structure Env where
  community : CommunityDetector
  semantic : SemanticScorer

/-- The observable outcome of `main` (source lines 182–236): the too-small
short-circuit (exit 0), the full result (exit 0), or the generic
`except`-handler `PYTHON ERROR` path (exit 1). -/
inductive MainResult where
  | tooSmall (gaps : List Insight) (message : String)
      (num_communities num_gaps_detected : ℕ)
  | success (gaps : List Insight) (num_communities num_gaps_detected : ℕ)
      (total_nodes total_edges : ℕ) (average_gap_score : ℚ)
  | pythonError (msg : String)
deriving DecidableEq

/-- `main()` (source lines 182–236) for an already-parsed input: the size
guard, then graph construction, betweenness, community detection,
structural gaps and insights; any exception raised on the way reaches the
generic handler and aborts with exit code 1. -/
def run_analysis (env : Env) (nodes : List InputNode) (edges : List InputEdge) :
    MainResult :=
  if nodes.length < 5 || edges.length < 2 then
    .tooSmall [] "Graph too small for gap analysis (need 5+ nodes, 2+ edges)" 0 0
  else
    let G := build_networkx_graph nodes edges
    let betweenness := calculate_betweenness_centrality G
    match detect_communities env.community G with
    | .error e => .pythonError e
    | .ok communities =>
      let num_communities := (communities.map (fun p => p.2)).dedup.length
      match find_structural_gaps env.semantic G communities betweenness 3 10 with
      | none => .pythonError "KeyError"
      | some gaps =>
        match optMapM (fun g => generate_gap_insights g G) gaps with
        | none => .pythonError "KeyError"
        | some insights =>
          .success insights num_communities gaps.length nodes.length edges.length
            (if gaps.length = 0 then 0
             else (gaps.map (fun g => g.gap_score)).sum / (gaps.length : ℚ))

/-- Whether a community assignment covers every node of the graph (each
loaded node has an assignment — lookup succeeds). -/
def partitionCovers (P : List (ℕ × ℕ)) (G : PyGraph) : Bool :=
  G.nodes.all (fun p => (P.lookup p.id).isSome)

/-- Observation on a `main` outcome: how many gap insights were emitted
(0 unless the run succeeded). -/
def gapsProduced : MainResult → ℕ
  | .success gaps _ _ _ _ _ => gaps.length
  | _ => 0

/-- A six-node input node list (two topic clusters worth of labelled
nodes), used as concrete test data. -/
def sampleNodes : List InputNode :=
  [⟨1, "A", none⟩, ⟨2, "B", none⟩, ⟨3, "C", none⟩,
   ⟨4, "D", none⟩, ⟨5, "E", none⟩, ⟨6, "F", none⟩]

/-- Two triangles `{1,2,3}` and `{4,5,6}` plus an edge `(7,8)` both of
whose endpoints are absent from `sampleNodes`: a malformed input in the
specification's sense. -/
def sampleEdgesUnknown : List InputEdge :=
  [⟨1, 2, none⟩, ⟨2, 3, none⟩, ⟨1, 3, none⟩,
   ⟨4, 5, none⟩, ⟨5, 6, none⟩, ⟨4, 6, none⟩, ⟨7, 8, none⟩]

/-- Two triangles joined by the single bridge edge `(3,4)`: a well-formed
input with one obvious structural gap. -/
def sampleEdgesBridge : List InputEdge :=
  [⟨1, 2, none⟩, ⟨2, 3, none⟩, ⟨1, 3, none⟩,
   ⟨4, 5, none⟩, ⟨5, 6, none⟩, ⟨4, 6, none⟩, ⟨3, 4, none⟩]

/-- The graph built from `sampleNodes` and `sampleEdgesBridge`. -/
def sampleGraph : PyGraph :=
  build_networkx_graph sampleNodes sampleEdgesBridge

/-- The two-community partition of `sampleGraph`'s nodes. -/
def samplePartition : List (ℕ × ℕ) :=
  [(1, 0), (2, 0), (3, 0), (4, 1), (5, 1), (6, 1)]

/-- The environment in which neither optional library imported
(`COMMUNITY_AVAILABLE = SEMANTIC_AVAILABLE = False`). -/
def envNone : Env :=
  ⟨⟨false, fun _ => .error "unavailable"⟩, ⟨false, fun _ _ => .error "unavailable"⟩⟩

/-- The gap record `find_structural_gaps` emits for the community pair
`(0, 1)` of `sampleGraph` under `samplePartition` with an empty centrality
table: `connectivity = 1/9`, `gap_score = 9 * (8/9) * (3/2) = 12`. -/
def sampleGap : Gap :=
  { community_1 := 0
    community_2 := 1
    nodes_1 := [1, 2, 3]
    nodes_2 := [4, 5, 6]
    cluster_1_keywords := ["A", "B", "C"]
    cluster_2_keywords := ["D", "E", "F"]
    gap_score := 12
    connectivity := 1/9
    semantic_distance := 1/2
    potential_connections := 1
    cluster_size := 6
    bridge_nodes := [] }

/-- A four-node, three-edge input: a triangle `{1,2,3}` with the pendant
node `4` attached to `3` (the specification's Scenario A). -/
def tinyNodes : List InputNode :=
  [⟨1, "A", none⟩, ⟨2, "B", none⟩, ⟨3, "C", none⟩, ⟨4, "D", none⟩]

/-- The three edges of the Scenario A graph. -/
def tinyEdges : List InputEdge :=
  [⟨1, 2, none⟩, ⟨2, 3, none⟩, ⟨1, 3, none⟩]

theorem perm_insLe (le : α → α → Bool) (x : α) (l : List α) :
    (insLe le x l).Perm (x :: l) := by
  induction l with
  | nil => exact List.Perm.refl _
  | cons y ys ih =>
    rw [insLe]
    split
    · exact List.Perm.refl _
    · exact (ih.cons y).trans (List.Perm.swap x y ys)

theorem perm_sortLe (le : α → α → Bool) (l : List α) : (sortLe le l).Perm l := by
  induction l with
  | nil => exact List.Perm.refl _
  | cons x xs ih => exact (perm_insLe le x (sortLe le xs)).trans (ih.cons x)

theorem mem_sortLe (le : α → α → Bool) (l : List α) (a : α) :
    a ∈ sortLe le l ↔ a ∈ l :=
  (perm_sortLe le l).mem_iff

theorem mem_insLe (le : α → α → Bool) (x : α) (l : List α) (a : α) :
    a ∈ insLe le x l ↔ a = x ∨ a ∈ l := by
  rw [(perm_insLe le x l).mem_iff, List.mem_cons]

theorem pairwise_insLe (le : α → α → Bool)
    (htrans : ∀ a b c, le a b = true → le b c = true → le a c = true)
    (htot : ∀ a b, le a b = true ∨ le b a = true) (x : α) (l : List α)
    (h : l.Pairwise (fun a b => le a b = true)) :
    (insLe le x l).Pairwise (fun a b => le a b = true) := by
  induction l with
  | nil => simp [insLe]
  | cons y ys ih =>
    rw [insLe]
    rcases List.pairwise_cons.1 h with ⟨hy, hys⟩
    split
    case isTrue hxy =>
      refine List.pairwise_cons.mpr ⟨?_, h⟩
      intro a ha
      rcases List.mem_cons.1 ha with rfl | ha
      · exact hxy
      · exact htrans x y a hxy (hy a ha)
    case isFalse hxy =>
      have hyx : le y x = true := by
        rcases htot x y with h' | h'
        · exact absurd h' hxy
        · exact h'
      refine List.pairwise_cons.mpr ⟨?_, ih hys⟩
      intro a ha
      rcases (mem_insLe le x ys a).1 ha with rfl | ha
      · exact hyx
      · exact hy a ha

theorem pairwise_sortLe (le : α → α → Bool)
    (htrans : ∀ a b c, le a b = true → le b c = true → le a c = true)
    (htot : ∀ a b, le a b = true ∨ le b a = true) (l : List α) :
    (sortLe le l).Pairwise (fun a b => le a b = true) := by
  induction l with
  | nil => exact List.Pairwise.nil
  | cons x xs ih => exact pairwise_insLe le htrans htot x (sortLe le xs) ih

theorem stable_insLe (key : α → ℚ) (r : α → α → Prop) (x : α) (l : List α)
    (hsort : l.Pairwise (fun a b => key b ≤ key a))
    (hQ : l.Pairwise (fun a b => key b < key a ∨ (key a = key b ∧ r a b)))
    (hx : ∀ y ∈ l, r x y) :
    (insLe (fun a b => key b ≤ key a) x l).Pairwise
      (fun a b => key b < key a ∨ (key a = key b ∧ r a b)) := by
  induction l with
  | nil => simp [insLe]
  | cons y ys ih =>
    rw [insLe]
    rcases List.pairwise_cons.1 hsort with ⟨hsy, hsys⟩
    rcases List.pairwise_cons.1 hQ with ⟨hQy, hQys⟩
    split
    case isTrue hxy =>
      have hxy' : key y ≤ key x := by simpa using hxy
      refine List.pairwise_cons.mpr ⟨?_, hQ⟩
      intro a ha
      have hax : key a ≤ key x := by
        rcases List.mem_cons.1 ha with rfl | ha
        · exact hxy'
        · exact le_trans (hsy a ha) hxy'
      rcases lt_or_eq_of_le hax with hlt | heq
      · exact Or.inl hlt
      · exact Or.inr ⟨heq.symm, hx a ha⟩
    case isFalse hxy =>
      have hyx : key x < key y := by
        have := hxy
        simp only [decide_eq_true_eq] at this
        exact lt_of_not_le this
      refine List.pairwise_cons.mpr ⟨?_, ih hsys hQys (fun a ha => hx a (List.mem_cons_of_mem y ha))⟩
      intro a ha
      rcases (mem_insLe _ x ys a).1 ha with rfl | ha
      · exact Or.inl hyx
      · exact hQy a ha

theorem stable_sortLe (key : α → ℚ) (r : α → α → Prop) (l : List α)
    (h : l.Pairwise r) :
    (sortLe (fun a b => key b ≤ key a) l).Pairwise
      (fun a b => key b < key a ∨ (key a = key b ∧ r a b)) := by
  induction l with
  | nil => exact List.Pairwise.nil
  | cons x xs ih =>
    rcases List.pairwise_cons.1 h with ⟨hx, hxs⟩
    refine stable_insLe key r x (sortLe _ xs) ?_ (ih hxs) ?_
    · have := pairwise_sortLe (fun a b : α => key b ≤ key a)
        (fun a b c hab hbc => by
          simp only [decide_eq_true_eq] at hab hbc ⊢
          exact le_trans hbc hab)
        (fun a b => by
          simp only [decide_eq_true_eq]
          exact le_total (key b) (key a)) xs
      exact this.imp (fun hab => by simpa using hab)
    · intro y hy
      exact hx y ((mem_sortLe _ xs y).1 hy)

theorem sorted_sortLe_key (key : α → ℚ) (l : List α) :
    (sortLe (fun a b => key b ≤ key a) l).Pairwise (fun a b => key b ≤ key a) := by
  have := pairwise_sortLe (fun a b : α => key b ≤ key a)
    (fun a b c hab hbc => by
      simp only [decide_eq_true_eq] at hab hbc ⊢
      exact le_trans hbc hab)
    (fun a b => by
      simp only [decide_eq_true_eq]
      exact le_total (key b) (key a)) l
  exact this.imp (fun hab => by simpa using hab)

theorem pySetAsc_sorted (l : List ℕ) : (pySetAsc l).Pairwise (· < ·) := by
  have hle : (pySetAsc l).Pairwise (· ≤ ·) := by
    have := pairwise_sortLe (fun a b : ℕ => a ≤ b)
      (fun a b c hab hbc => by
        simp only [decide_eq_true_eq] at hab hbc ⊢
        exact le_trans hab hbc)
      (fun a b => by
        simp only [decide_eq_true_eq]
        exact le_total a b) l.dedup
    exact this.imp (fun hab => by simpa using hab)
  have hnd : (pySetAsc l).Nodup :=
    ((perm_sortLe _ l.dedup).symm.nodup (List.nodup_dedup l))
  exact (hle.and hnd).imp (fun h => lt_of_le_of_ne h.1 h.2)

theorem mem_pySetAsc (l : List ℕ) (a : ℕ) : a ∈ pySetAsc l ↔ a ∈ l := by
  rw [pySetAsc, mem_sortLe, List.mem_dedup]

theorem optMapM_forall₂ {f : α → Option β} :
    ∀ {xs : List α} {ys : List β}, optMapM f xs = some ys →
      List.Forall₂ (fun x y => f x = some y) xs ys := by
  intro xs
  induction xs with
  | nil =>
    intro ys h
    simp only [optMapM, Option.some.injEq] at h
    subst h
    exact List.Forall₂.nil
  | cons x xs ih =>
    intro ys h
    rw [optMapM] at h
    rcases hx : f x with _ | y
    · rw [hx] at h; exact absurd h (by simp)
    rcases hxs : optMapM f xs with _ | ys'
    · rw [hx, hxs] at h; exact absurd h (by simp)
    rw [hx, hxs] at h
    simp only [Option.some.injEq] at h
    subst h
    exact List.Forall₂.cons hx (ih hxs)

theorem forall₂_exists_left {R : α → β → Prop} :
    ∀ {xs : List α} {ys : List β}, List.Forall₂ R xs ys →
      ∀ y ∈ ys, ∃ x ∈ xs, R x y := by
  intro xs ys h
  induction h with
  | nil => intro y hy; cases hy
  | cons hab _ ih =>
    intro y hy
    rcases List.mem_cons.1 hy with rfl | hy
    · exact ⟨_, List.mem_cons_self _ _, hab⟩
    · rcases ih y hy with ⟨x, hx, hr⟩
      exact ⟨x, List.mem_cons_of_mem _ hx, hr⟩

theorem optMapM_mem {f : α → Option β} {xs : List α} {ys : List β}
    (h : optMapM f xs = some ys) (y : β) (hy : y ∈ ys) :
    ∃ x ∈ xs, f x = some y :=
  forall₂_exists_left (optMapM_forall₂ h) y hy

theorem optMapM_isSome {f : α → Option β} :
    ∀ {xs : List α}, (∀ x ∈ xs, (f x).isSome) → (optMapM f xs).isSome := by
  intro xs
  induction xs with
  | nil => intro _; simp [optMapM]
  | cons x xs ih =>
    intro h
    rw [optMapM]
    rcases hx : f x with _ | y
    · have := h x (List.mem_cons_self x xs)
      rw [hx] at this
      cases this
    rcases hxs : optMapM f xs with _ | ys
    · have := ih (fun a ha => h a (List.mem_cons_of_mem x ha))
      rw [hxs] at this
      cases this
    simp

theorem optMapM_length {f : α → Option β} {xs : List α} {ys : List β}
    (h : optMapM f xs = some ys) : ys.length = xs.length :=
  (optMapM_forall₂ h).length_eq.symm

theorem countP_or_disjoint (p q : α → Bool) :
    ∀ (l : List α), (∀ x ∈ l, ¬(p x = true ∧ q x = true)) →
      l.countP (fun x => p x || q x) = l.countP p + l.countP q := by
  intro l
  induction l with
  | nil => intro _; simp [List.countP_nil]
  | cons a l ih =>
    intro h
    have ha := h a (List.mem_cons_self a l)
    have hl := ih (fun x hx => h x (List.mem_cons_of_mem a hx))
    simp only [List.countP_cons, hl]
    rcases hpa : p a with _ | _ <;> rcases hqa : q a with _ | _ <;> simp_all <;> omega

theorem sameUnordered_of_matches {e e' : PyEdge} {a w : ℕ}
    (h : edgeMatches e a w = true) (h' : edgeMatches e' a w = true) :
    sameUnordered e e' = true := by
  simp only [edgeMatches, Bool.or_eq_true, Bool.and_eq_true, decide_eq_true_eq] at h h'
  simp only [sameUnordered, Bool.or_eq_true, Bool.and_eq_true, decide_eq_true_eq]
  rcases h with ⟨h1, h2⟩ | ⟨h1, h2⟩ <;> rcases h' with ⟨h3, h4⟩ | ⟨h3, h4⟩ <;> omega

theorem edgesWellFormed_cons {e : PyEdge} {E : List PyEdge}
    (h : edgesWellFormed (e :: E) = true) :
    (∀ e' ∈ E, sameUnordered e e' = false) ∧ edgesWellFormed E = true := by
  rw [edgesWellFormed, Bool.and_eq_true, List.all_eq_true] at h
  exact ⟨fun e' he' => by simpa using h.1 e' he', h.2⟩

theorem countP_hasEdgeL (a : ℕ) (B : List ℕ) (hB : B.Nodup) (_haB : a ∉ B) :
    ∀ (E : List PyEdge), edgesWellFormed E = true →
      B.countP (fun b => hasEdgeL E a b) =
        E.countP (fun e =>
          (decide (e.u = a) && B.contains e.v) || (decide (e.v = a) && B.contains e.u)) := by
  intro E
  induction E with
  | nil =>
    intro _
    simp [hasEdgeL]
  | cons e E' ih =>
    intro hwf
    obtain ⟨hall, hwf'⟩ := edgesWellFormed_cons hwf
    have hstep : ∀ b, hasEdgeL (e :: E') a b = (edgeMatches e a b || hasEdgeL E' a b) := by
      intro b
      rw [hasEdgeL, List.any_cons]
      rfl
    by_cases hinc :
        ((decide (e.u = a) && B.contains e.v) || (decide (e.v = a) && B.contains e.u)) = true
    · obtain ⟨w, hwB, hmatch, hew⟩ :
          ∃ w, w ∈ B ∧ (∀ b, edgeMatches e a b = (b == w)) ∧ edgeMatches e a w = true := by
        have hinc' := hinc
        rw [Bool.or_eq_true] at hinc'
        rcases hinc' with h1 | h1
        · rw [Bool.and_eq_true] at h1
          obtain ⟨hu, hv⟩ := h1
          have hu : e.u = a := by simpa using hu
          have hv : e.v ∈ B := List.elem_iff.1 hv
          refine ⟨e.v, hv, fun b => ?_, ?_⟩
          · rw [Bool.eq_iff_iff]
            simp only [edgeMatches, Bool.or_eq_true, Bool.and_eq_true, decide_eq_true_eq,
              beq_iff_eq]
            omega
          · simp [edgeMatches, hu]
        · rw [Bool.and_eq_true] at h1
          obtain ⟨hv, hu⟩ := h1
          have hv : e.v = a := by simpa using hv
          have hu : e.u ∈ B := List.elem_iff.1 hu
          refine ⟨e.u, hu, fun b => ?_, ?_⟩
          · rw [Bool.eq_iff_iff]
            simp only [edgeMatches, Bool.or_eq_true, Bool.and_eq_true, decide_eq_true_eq,
              beq_iff_eq]
            omega
          · simp [edgeMatches, hv]
      have hnotE' : hasEdgeL E' a w = false := by
        rw [Bool.eq_false_iff]
        intro hcon
        rcases List.any_eq_true.1 hcon with ⟨e', he', hm⟩
        have := sameUnordered_of_matches hew hm
        rw [hall e' he'] at this
        cases this
      have hL : B.countP (fun b => hasEdgeL (e :: E') a b)
          = B.countP (fun b => (b == w) || hasEdgeL E' a b) := by
        refine List.countP_congr (fun b _ => ?_)
        rw [hstep b, hmatch b]
      have hsplit : B.countP (fun b => (b == w) || hasEdgeL E' a b)
          = B.countP (fun b => b == w) + B.countP (fun b => hasEdgeL E' a b) := by
        refine countP_or_disjoint _ _ B (fun b _ hb => ?_)
        have hbw : b = w := by simpa using hb.1
        rw [hbw, hnotE'] at hb
        exact absurd hb.2 (by simp)
      have hone : B.countP (fun b => b == w) = 1 := by
        have : B.count w = 1 := List.count_eq_one_of_mem hB hwB
        simpa [List.count] using this
      rw [hL, hsplit, hone, ih hwf', List.countP_cons, if_pos hinc]
      omega
    · have hL : B.countP (fun b => hasEdgeL (e :: E') a b)
          = B.countP (fun b => hasEdgeL E' a b) := by
        refine List.countP_congr (fun b hb => ?_)
        rw [hstep b]
        have hm : edgeMatches e a b = false := by
          rw [Bool.eq_false_iff]
          intro hm
          apply hinc
          simp only [edgeMatches, Bool.or_eq_true, Bool.and_eq_true, decide_eq_true_eq] at hm
          simp only [Bool.or_eq_true, Bool.and_eq_true, decide_eq_true_eq]
          rcases hm with ⟨h1, h2⟩ | ⟨h1, h2⟩
          · exact Or.inl ⟨h1, List.elem_iff.2 (h2 ▸ hb)⟩
          · exact Or.inr ⟨h2, List.elem_iff.2 (h1 ▸ hb)⟩
        rw [hm, Bool.false_or]
      rw [hL, ih hwf', List.countP_cons, if_neg hinc]
      omega

theorem count_edges_between_eq_cross (G : PyGraph) :
    ∀ (A : List ℕ), A.Nodup → ∀ (B : List ℕ), B.Nodup → (∀ x ∈ A, x ∉ B) →
      edgesWellFormed G.edges = true →
      count_edges_between G A B = cross_edge_count G A B := by
  intro A
  induction A with
  | nil =>
    intro _ B _ _ _
    rw [count_edges_between, cross_edge_count]
    simp only [List.map_nil, List.sum_nil]
    rw [eq_comm, List.countP_eq_zero]
    intro e _
    simp [List.contains]
  | cons a A' ih =>
    intro hA B hB hdisj hwf
    have haA' : a ∉ A' := (List.nodup_cons.1 hA).1
    have hA' : A'.Nodup := (List.nodup_cons.1 hA).2
    have haB : a ∉ B := hdisj a (List.mem_cons_self a A')
    have hdisj' : ∀ x ∈ A', x ∉ B := fun x hx => hdisj x (List.mem_cons_of_mem a hx)
    have hsplitP : cross_edge_count G (a :: A') B
        = G.edges.countP (fun e =>
            ((decide (e.u = a) && B.contains e.v) || (decide (e.v = a) && B.contains e.u))
            || ((A'.contains e.u && B.contains e.v) || (B.contains e.u && A'.contains e.v))) := by
      rw [cross_edge_count]
      refine List.countP_congr (fun e _ => ?_)
      simp only [Bool.or_eq_true, Bool.and_eq_true, decide_eq_true_eq, List.elem_iff,
        List.mem_cons]
      tauto
    have hdisjP : G.edges.countP (fun e =>
            ((decide (e.u = a) && B.contains e.v) || (decide (e.v = a) && B.contains e.u))
            || ((A'.contains e.u && B.contains e.v) || (B.contains e.u && A'.contains e.v)))
        = G.edges.countP (fun e =>
            (decide (e.u = a) && B.contains e.v) || (decide (e.v = a) && B.contains e.u))
          + G.edges.countP (fun e =>
            (A'.contains e.u && B.contains e.v) || (B.contains e.u && A'.contains e.v)) := by
      refine countP_or_disjoint _ _ _ (fun e _ h => ?_)
      obtain ⟨h1, h2⟩ := h
      simp only [Bool.or_eq_true, Bool.and_eq_true, decide_eq_true_eq, List.elem_iff] at h1 h2
      rcases h1 with ⟨hu, hv⟩ | ⟨hv, hu⟩ <;> rcases h2 with ⟨h3, h4⟩ | ⟨h3, h4⟩
      · exact haA' (hu ▸ h3)
      · exact haB (hu ▸ h3)
      · exact haB (hv ▸ h4)
      · exact haA' (hv ▸ h4)
    rw [count_edges_between]
    simp only [List.map_cons, List.sum_cons]
    have hihres := ih hA' B hB hdisj' hwf
    rw [count_edges_between] at hihres
    rw [hsplitP, hdisjP, hihres, cross_edge_count]
    simp only [PyGraph.hasEdge]
    rw [countP_hasEdgeL a B hB haB G.edges hwf]

theorem gapForPair_cases {S : SemanticScorer} {G : PyGraph} {communities : List (ℕ × ℕ)}
    {betweenness : List (ℕ × ℚ)} {mcs c1 c2 : ℕ} {gs : List Gap}
    (h : gapForPair S G communities betweenness mcs c1 c2 = some gs) :
    gs = [] ∨ ∃ g, gs = [g] ∧
      mcs ≤ (community_members communities c1).length ∧
      mcs ≤ (community_members communities c2).length ∧
      g.community_1 = c1 ∧ g.community_2 = c2 ∧
      g.nodes_1 = community_members communities c1 ∧
      g.nodes_2 = community_members communities c2 ∧
      get_cluster_keywords G g.nodes_1 5 = some g.cluster_1_keywords ∧
      get_cluster_keywords G g.nodes_2 5 = some g.cluster_2_keywords ∧
      g.semantic_distance =
        calculate_semantic_distance S g.cluster_1_keywords g.cluster_2_keywords ∧
      g.potential_connections = count_edges_between G g.nodes_1 g.nodes_2 ∧
      g.connectivity = (if 0 < g.nodes_1.length * g.nodes_2.length
        then (g.potential_connections : ℚ) / ((g.nodes_1.length * g.nodes_2.length : ℕ) : ℚ)
        else 0) ∧
      g.connectivity < 1/5 ∧
      g.gap_score = ((g.nodes_1.length * g.nodes_2.length : ℕ) : ℚ)
        * (1 - g.connectivity) * (1 + g.semantic_distance) ∧
      g.bridge_nodes = find_bridge_nodes betweenness g.nodes_1 g.nodes_2 3 := by
  simp only [gapForPair] at h
  split at h
  · left
    injection h with h
    exact h.symm
  case isFalse hcond =>
    simp only [Bool.or_eq_true, decide_eq_true_eq, not_or, not_lt] at hcond
    split at h
    case h_1 kw1 kw2 heq1 heq2 =>
      split at h
      case isTrue hpos =>
        split at h
        case isTrue hconn =>
          right
          injection h with h
          subst h
          refine ⟨_, rfl, hcond.1, hcond.2, rfl, rfl, rfl, rfl, heq1, heq2, rfl, rfl, ?_,
            hconn, rfl, rfl⟩
          simp [hpos]
        case isFalse =>
          left
          injection h with h
          exact h.symm
      case isFalse hpos =>
        split at h
        case isTrue hconn =>
          right
          injection h with h
          subst h
          refine ⟨_, rfl, hcond.1, hcond.2, rfl, rfl, rfl, rfl, heq1, heq2, rfl, rfl, ?_,
            hconn, rfl, rfl⟩
          simp [hpos]
        case isFalse =>
          left
          injection h with h
          exact h.symm
    case h_2 =>
      exact absurd h (by simp)

theorem gapForPair_mem {S : SemanticScorer} {G : PyGraph} {communities : List (ℕ × ℕ)}
    {betweenness : List (ℕ × ℚ)} {mcs c1 c2 : ℕ} {gs : List Gap} {g : Gap}
    (h : gapForPair S G communities betweenness mcs c1 c2 = some gs) (hg : g ∈ gs) :
    mcs ≤ (community_members communities c1).length ∧
    mcs ≤ (community_members communities c2).length ∧
    g.community_1 = c1 ∧ g.community_2 = c2 ∧
    g.nodes_1 = community_members communities c1 ∧
    g.nodes_2 = community_members communities c2 ∧
    get_cluster_keywords G g.nodes_1 5 = some g.cluster_1_keywords ∧
    get_cluster_keywords G g.nodes_2 5 = some g.cluster_2_keywords ∧
    g.semantic_distance =
      calculate_semantic_distance S g.cluster_1_keywords g.cluster_2_keywords ∧
    g.potential_connections = count_edges_between G g.nodes_1 g.nodes_2 ∧
    g.connectivity = (if 0 < g.nodes_1.length * g.nodes_2.length
      then (g.potential_connections : ℚ) / ((g.nodes_1.length * g.nodes_2.length : ℕ) : ℚ)
      else 0) ∧
    g.connectivity < 1/5 ∧
    g.gap_score = ((g.nodes_1.length * g.nodes_2.length : ℕ) : ℚ)
      * (1 - g.connectivity) * (1 + g.semantic_distance) ∧
    g.bridge_nodes = find_bridge_nodes betweenness g.nodes_1 g.nodes_2 3 := by
  rcases gapForPair_cases h with rfl | ⟨g', rfl, hrest⟩
  · cases hg
  · rcases List.mem_singleton.1 hg with rfl
    exact hrest

theorem find_structural_gaps_shape {S : SemanticScorer} {G : PyGraph}
    {communities : List (ℕ × ℕ)} {betweenness : List (ℕ × ℚ)} {mcs mg : ℕ}
    {gaps : List Gap}
    (h : find_structural_gaps S G communities betweenness mcs mg = some gaps) :
    ∃ gapLists,
      optMapM (fun p => gapForPair S G communities betweenness mcs p.1 p.2)
        (communityPairs communities) = some gapLists ∧
      gaps = (sortLe (fun a b => b.gap_score ≤ a.gap_score) gapLists.flatten).take mg := by
  rw [find_structural_gaps] at h
  rcases hopt : optMapM (fun p => gapForPair S G communities betweenness mcs p.1 p.2)
      (communityPairs communities) with _ | gapLists
  · rw [hopt] at h
    exact absurd h (by simp)
  · rw [hopt] at h
    injection h with h
    exact ⟨gapLists, hopt, h.symm⟩

theorem find_structural_gaps_mem {S : SemanticScorer} {G : PyGraph}
    {communities : List (ℕ × ℕ)} {betweenness : List (ℕ × ℚ)} {mcs mg : ℕ}
    {gaps : List Gap} {g : Gap}
    (h : find_structural_gaps S G communities betweenness mcs mg = some gaps)
    (hg : g ∈ gaps) :
    ∃ p ∈ communityPairs communities, ∃ gs,
      gapForPair S G communities betweenness mcs p.1 p.2 = some gs ∧ g ∈ gs := by
  rcases find_structural_gaps_shape h with ⟨gapLists, hopt, rfl⟩
  have hg1 : g ∈ sortLe (fun a b => b.gap_score ≤ a.gap_score) gapLists.flatten :=
    List.mem_of_mem_take hg
  have hg2 : g ∈ gapLists.flatten := (mem_sortLe _ _ g).1 hg1
  rcases List.mem_flatten.1 hg2 with ⟨gs, hgs, hggs⟩
  rcases optMapM_mem hopt gs hgs with ⟨p, hp, hfp⟩
  exact ⟨p, hp, gs, hfp, hggs⟩

theorem communityPairs_lt {communities : List (ℕ × ℕ)} {c1 c2 : ℕ}
    (h : (c1, c2) ∈ communityPairs communities) : c1 < c2 := by
  rw [communityPairs] at h
  rcases List.mem_flatMap.1 h with ⟨a, _, hmem⟩
  rcases List.mem_map.1 hmem with ⟨b, hb, heq⟩
  cases heq
  simpa using (List.mem_filter.1 hb).2

theorem forall₂_pairwise {F : α → List β → Prop} {P : α → α → Prop} {Q : β → β → Prop}
    (hcross : ∀ x y gs hs, F x gs → F y hs → P x y → ∀ g ∈ gs, ∀ h ∈ hs, Q g h) :
    ∀ {xs : List α} {ys : List (List β)}, List.Forall₂ F xs ys → xs.Pairwise P →
      ys.Pairwise (fun gs hs => ∀ g ∈ gs, ∀ h ∈ hs, Q g h) := by
  intro xs ys hf
  induction hf with
  | nil => intro _; exact List.Pairwise.nil
  | cons hF hf ih =>
    intro hp
    rcases List.pairwise_cons.1 hp with ⟨hx, hxs⟩
    refine List.pairwise_cons.mpr ⟨?_, ih hxs⟩
    intro hs hmem
    rcases forall₂_exists_left hf hs hmem with ⟨y, hy, hFy⟩
    exact hcross _ _ _ _ hF hFy (hx y hy)

theorem communityPairs_pairwise (communities : List (ℕ × ℕ)) :
    (communityPairs communities).Pairwise
      (fun p q => p.1 < q.1 ∨ (p.1 = q.1 ∧ p.2 < q.2)) := by
  rw [communityPairs]
  have hids := pySetAsc_sorted (communities.map (fun p => p.2))
  rw [List.pairwise_flatMap]
  constructor
  · intro a _
    rw [List.pairwise_map]
    refine (List.Pairwise.filter _ hids).imp ?_
    intro x y hxy
    exact Or.inr ⟨rfl, hxy⟩
  · refine hids.imp ?_
    intro a b hab x hx y hy
    rcases List.mem_map.1 hx with ⟨c, _, rfl⟩
    rcases List.mem_map.1 hy with ⟨d, _, rfl⟩
    exact Or.inl hab

theorem gapLists_flatten_pairwise {S : SemanticScorer} {G : PyGraph}
    {communities : List (ℕ × ℕ)} {betweenness : List (ℕ × ℚ)} {mcs : ℕ}
    {gapLists : List (List Gap)}
    (hopt : optMapM (fun p => gapForPair S G communities betweenness mcs p.1 p.2)
      (communityPairs communities) = some gapLists) :
    gapLists.flatten.Pairwise (fun g h =>
      g.community_1 < h.community_1 ∨
        (g.community_1 = h.community_1 ∧ g.community_2 < h.community_2)) := by
  rw [List.pairwise_flatten]
  have hf := optMapM_forall₂ hopt
  constructor
  · intro gs hgs
    rcases forall₂_exists_left hf gs hgs with ⟨p, _, hfp⟩
    rcases gapForPair_cases hfp with rfl | ⟨g, rfl, _⟩
    · exact List.Pairwise.nil
    · exact List.pairwise_singleton _ g
  · refine forall₂_pairwise ?_ hf (communityPairs_pairwise communities)
    intro x y gs hs hFx hFy hP g hg h hh
    obtain ⟨-, -, hg1, hg2, -⟩ := gapForPair_mem hFx hg
    obtain ⟨-, -, hh1, hh2, -⟩ := gapForPair_mem hFy hh
    rw [hg1, hg2, hh1, hh2]
    exact hP

theorem find_structural_gaps_sorted {S : SemanticScorer} {G : PyGraph}
    {communities : List (ℕ × ℕ)} {betweenness : List (ℕ × ℚ)} {mcs mg : ℕ}
    {gaps : List Gap}
    (h : find_structural_gaps S G communities betweenness mcs mg = some gaps) :
    gaps.length ≤ mg ∧ gaps.Pairwise (fun a b =>
      b.gap_score < a.gap_score ∨ (a.gap_score = b.gap_score ∧
        (a.community_1 < b.community_1 ∨
          (a.community_1 = b.community_1 ∧ a.community_2 < b.community_2)))) := by
  rcases find_structural_gaps_shape h with ⟨gapLists, hopt, rfl⟩
  constructor
  · exact List.length_take_le mg _
  · refine List.Pairwise.sublist (List.take_sublist mg _) ?_
    exact stable_sortLe (fun g => g.gap_score) _ _ (gapLists_flatten_pairwise hopt)

theorem hasNode_of_label {G : PyGraph} {n : ℕ} (h : (G.nodeLabel n).isSome) :
    G.hasNode n = true := by
  rw [PyGraph.nodeLabel] at h
  rcases hf : G.nodes.find? (fun p => p.id = n) with _ | p
  · rw [hf] at h
    cases h
  · rw [PyGraph.hasNode, List.any_eq_true]
    have h2 := List.find?_some hf
    exact ⟨p, List.mem_of_find?_eq_some hf, h2⟩

theorem get_cluster_keywords_spec {G : PyGraph} {ns : List ℕ} {kws : List String}
    (h : get_cluster_keywords G ns 5 = some kws)
    (hlab : ∀ n ∈ ns, (G.nodeLabel n).isSome) :
    kws.length = min 5 ns.length ∧ ∀ kw ∈ kws, ∃ n ∈ ns, G.nodeLabel n = some kw := by
  rw [get_cluster_keywords] at h
  have hfilter : ns.filter (fun n => G.hasNode n) = ns :=
    List.filter_eq_self.mpr (fun n hn => hasNode_of_label (hlab n hn))
  rw [hfilter] at h
  rcases hopt : optMapM (fun n => G.nodeLabel n) ns with _ | labels
  · rw [hopt] at h
    exact absurd h (by simp)
  · rw [hopt] at h
    injection h with h
    subst h
    refine ⟨?_, ?_⟩
    · rw [List.length_take, optMapM_length hopt]
    · intro kw hkw
      exact optMapM_mem hopt kw (List.mem_of_mem_take hkw)

theorem find_bridge_nodes_subset {bc : List (ℕ × ℚ)} {n1 n2 : List ℕ} {topn x : ℕ}
    (hx : x ∈ find_bridge_nodes bc n1 n2 topn) : x ∈ n1 ++ n2 := by
  rw [find_bridge_nodes] at hx
  rcases List.mem_map.1 hx with ⟨p, hp, rfl⟩
  have hp1 : p ∈ bridge_candidates bc n1 n2 := List.mem_of_mem_take hp
  rw [bridge_candidates] at hp1
  have hp2 := (mem_sortLe _ _ p).1 hp1
  have := (List.mem_filter.1 hp2).2
  exact List.elem_iff.1 this

theorem find_bridge_nodes_length (bc : List (ℕ × ℚ)) (n1 n2 : List ℕ) (topn : ℕ) :
    (find_bridge_nodes bc n1 n2 topn).length ≤ topn := by
  rw [find_bridge_nodes, List.length_map]
  exact List.length_take_le topn _

theorem bridge_candidates_sorted {bc : List (ℕ × ℚ)} (n1 n2 : List ℕ)
    {r : ℕ × ℚ → ℕ × ℚ → Prop} (hr : bc.Pairwise r) :
    (bridge_candidates bc n1 n2).Pairwise
      (fun p q => q.2 < p.2 ∨ (p.2 = q.2 ∧ r p q)) := by
  rw [bridge_candidates]
  exact stable_sortLe (fun p => p.2) _ _ (List.Pairwise.filter _ hr)

theorem generate_gap_insights_isSome {gap : Gap} {G : PyGraph}
    (h1 : gap.cluster_1_keywords ≠ [])
    (h2 : gap.cluster_2_keywords ≠ [])
    (h3 : ∀ n ∈ gap.bridge_nodes, (G.nodeLabel n).isSome) :
    (generate_gap_insights gap G).isSome := by
  rw [generate_gap_insights]
  rcases hk1 : gap.cluster_1_keywords with _ | ⟨k1, kt1⟩
  · exact absurd hk1 h1
  rcases hk2 : gap.cluster_2_keywords with _ | ⟨k2, kt2⟩
  · exact absurd hk2 h2
  have hbr : (optMapM (fun n => G.nodeLabel n)
      (gap.bridge_nodes.filter (fun n => G.hasNode n))).isSome := by
    refine optMapM_isSome (fun n hn => ?_)
    exact h3 n (List.mem_of_mem_filter hn)
  rcases hopt : optMapM (fun n => G.nodeLabel n)
      (gap.bridge_nodes.filter (fun n => G.hasNode n)) with _ | labels
  · rw [hopt] at hbr
    cases hbr
  · simp [hopt]

theorem ccBfs_visited_subset (G : PyGraph) :
    ∀ (fuel : ℕ) (queue visited : List ℕ) (x : ℕ), x ∈ visited →
      x ∈ ccBfs G fuel queue visited := by
  intro fuel
  induction fuel with
  | zero => intro queue visited x hx; rw [ccBfs]; exact hx
  | succ fuel ih =>
    intro queue visited x hx
    cases queue with
    | nil => rw [ccBfs]; exact hx
    | cons y queue =>
      rw [ccBfs]
      exact ih _ _ x (List.mem_append_left _ hx)

theorem self_mem_reach (G : PyGraph) (n : ℕ) : n ∈ reach G n := by
  rw [reach]
  exact ccBfs_visited_subset G _ [n] [n] n (List.mem_singleton.2 rfl)

theorem components_foldl_mono (G : PyGraph) :
    ∀ (l : List ℕ) (acc : List (List ℕ)) (c : List ℕ), c ∈ acc →
      c ∈ l.foldl
          (fun comps n =>
            if comps.any (fun c => c.contains n) then comps else comps ++ [reach G n])
          acc := by
  intro l
  induction l with
  | nil => intro acc c hc; exact hc
  | cons n l ih =>
    intro acc c hc
    rw [List.foldl_cons]
    split
    · exact ih acc c hc
    · exact ih _ c (List.mem_append_left _ hc)

theorem components_foldl_covers (G : PyGraph) :
    ∀ (l : List ℕ) (acc : List (List ℕ)) (n : ℕ), n ∈ l →
      ∃ c ∈ l.foldl
          (fun comps n =>
            if comps.any (fun c => c.contains n) then comps else comps ++ [reach G n])
          acc, n ∈ c := by
  intro l
  induction l with
  | nil => intro acc n hn; cases hn
  | cons m l ih =>
    intro acc n hn
    rw [List.foldl_cons]
    rcases List.mem_cons.1 hn with rfl | hn
    · split
      case isTrue hc =>
        rcases List.any_eq_true.1 hc with ⟨c, hcacc, hcn⟩
        exact ⟨c, components_foldl_mono G l acc c hcacc, List.elem_iff.1 hcn⟩
      case isFalse =>
        refine ⟨reach G n, components_foldl_mono G l _ _ ?_, self_mem_reach G n⟩
        exact List.mem_append_right _ (List.mem_singleton.2 rfl)
    · split
      · exact ih acc n hn
      · exact ih _ n hn

theorem connected_components_covers {G : PyGraph} {n : ℕ}
    (hn : n ∈ G.nodes.map (fun p => p.id)) :
    ∃ c ∈ connected_components G, n ∈ c := by
  rw [connected_components]
  exact components_foldl_covers G _ [] n hn

theorem mem_enumFrom_of_mem {l : List α} {x : α} (h : x ∈ l) :
    ∀ k, ∃ i, (i, x) ∈ l.enumFrom k := by
  induction l with
  | nil => cases h
  | cons y ys ih =>
    intro k
    rcases List.mem_cons.1 h with rfl | h
    · exact ⟨k, by simp [List.enumFrom]⟩
    · rcases ih h (k + 1) with ⟨i, hi⟩
      refine ⟨i, ?_⟩
      rw [List.enumFrom]
      exact List.mem_cons_of_mem _ hi

theorem mem_enum_of_mem {l : List α} {x : α} (h : x ∈ l) : ∃ i, (i, x) ∈ l.enum :=
  mem_enumFrom_of_mem h 0

theorem lookup_isSome_of_mem {l : List (ℕ × ℕ)} {n v : ℕ} (h : (n, v) ∈ l) :
    (l.lookup n).isSome := by
  induction l with
  | nil => cases h
  | cons p l ih =>
    rcases p with ⟨a, b⟩
    rw [List.lookup_cons]
    rcases hn : (n == a) with _ | _
    · rcases List.mem_cons.1 h with heq | h
      · injection heq with h1 _
        rw [h1] at hn
        simp at hn
      · exact ih h
    · simp

theorem connected_component_partition_covers {G : PyGraph} {n : ℕ}
    (hn : n ∈ G.nodes.map (fun p => p.id)) :
    ((connected_component_partition G).lookup n).isSome := by
  rcases connected_components_covers hn with ⟨c, hc, hnc⟩
  rcases mem_enum_of_mem hc with ⟨i, hic⟩
  have hmem : (n, i) ∈ connected_component_partition G := by
    rw [connected_component_partition]
    rw [List.mem_flatMap]
    exact ⟨(i, c), hic, List.mem_map.2 ⟨n, hnc, rfl⟩⟩
  exact lookup_isSome_of_mem hmem

theorem hasNode_addNodeBare_self (G : PyGraph) (n : ℕ) :
    (addNodeBare G n).hasNode n = true := by
  rw [addNodeBare]
  split
  case isTrue h => exact h
  case isFalse h =>
    rw [PyGraph.hasNode, List.any_eq_true]
    exact ⟨⟨n, none, none⟩, List.mem_append_right _ (List.mem_singleton.2 rfl), by simp⟩

theorem hasNode_addNodeBare_mono {G : PyGraph} {m : ℕ} (n : ℕ)
    (h : G.hasNode m = true) : (addNodeBare G n).hasNode m = true := by
  rw [addNodeBare]
  split
  · exact h
  · rw [PyGraph.hasNode, List.any_eq_true] at h ⊢
    rcases h with ⟨p, hp, hpm⟩
    exact ⟨p, List.mem_append_left _ hp, hpm⟩

theorem addEdge_nodes (G : PyGraph) (a b : ℕ) (lab : String) :
    (addEdge G a b lab).nodes = (addNodeBare (addNodeBare G a) b).nodes := by
  rw [addEdge]
  split <;> rfl

theorem hasNode_addEdge {G : PyGraph} {m : ℕ} (a b : ℕ) (lab : String) :
    (addEdge G a b lab).hasNode m = (addNodeBare (addNodeBare G a) b).hasNode m := by
  rw [PyGraph.hasNode, PyGraph.hasNode, addEdge_nodes]

theorem hasNode_addEdge_self_left (G : PyGraph) (a b : ℕ) (lab : String) :
    (addEdge G a b lab).hasNode a = true := by
  rw [hasNode_addEdge]
  exact hasNode_addNodeBare_mono b (hasNode_addNodeBare_self G a)

theorem hasNode_addEdge_self_right (G : PyGraph) (a b : ℕ) (lab : String) :
    (addEdge G a b lab).hasNode b = true := by
  rw [hasNode_addEdge]
  exact hasNode_addNodeBare_self _ b

theorem hasNode_addEdge_mono {G : PyGraph} {m : ℕ} (a b : ℕ) (lab : String)
    (h : G.hasNode m = true) : (addEdge G a b lab).hasNode m = true := by
  rw [hasNode_addEdge]
  exact hasNode_addNodeBare_mono b (hasNode_addNodeBare_mono a h)

theorem edgeMatches_label_update (e : PyEdge) (lab : String) (x y : ℕ) :
    edgeMatches { e with label := lab } x y = edgeMatches e x y := rfl

theorem hasEdge_addEdge_self (G : PyGraph) (a b : ℕ) (lab : String) :
    (addEdge G a b lab).hasEdge a b = true := by
  rw [addEdge]
  split
  case isTrue h =>
    rw [PyGraph.hasEdge, hasEdgeL, List.any_eq_true] at h ⊢
    rcases h with ⟨e, he, hm⟩
    refine ⟨if edgeMatches e a b then { e with label := lab } else e,
      List.mem_map.2 ⟨e, he, rfl⟩, ?_⟩
    rw [if_pos hm, edgeMatches_label_update]
    exact hm
  case isFalse h =>
    rw [PyGraph.hasEdge, hasEdgeL, List.any_eq_true]
    refine ⟨⟨a, b, lab⟩, List.mem_append_right _ (List.mem_singleton.2 rfl), ?_⟩
    simp [edgeMatches]

theorem hasEdge_addNodeBare {G : PyGraph} (n x y : ℕ) :
    (addNodeBare G n).hasEdge x y = G.hasEdge x y := by
  rw [addNodeBare]
  split <;> rfl

theorem hasEdge_addEdge_mono {G : PyGraph} {x y : ℕ} (a b : ℕ) (lab : String)
    (h : G.hasEdge x y = true) : (addEdge G a b lab).hasEdge x y = true := by
  rw [addEdge]
  have h1 : (addNodeBare (addNodeBare G a) b).hasEdge x y = true := by
    rw [hasEdge_addNodeBare, hasEdge_addNodeBare]
    exact h
  split
  · rw [PyGraph.hasEdge, hasEdgeL, List.any_eq_true] at h1 ⊢
    rcases h1 with ⟨e, he, hm⟩
    refine ⟨if edgeMatches e a b then { e with label := lab } else e,
      List.mem_map.2 ⟨e, he, rfl⟩, ?_⟩
    split
    · rw [edgeMatches_label_update]
      exact hm
    · exact hm
  · rw [PyGraph.hasEdge, hasEdgeL, List.any_eq_true] at h1 ⊢
    rcases h1 with ⟨e, he, hm⟩
    exact ⟨e, List.mem_append_left _ he, hm⟩

theorem foldl_addEdge_hasNode {edges : List InputEdge} :
    ∀ {G : PyGraph} {m : ℕ}, G.hasNode m = true →
      (edges.foldl (fun G e => addEdge G e.fromId e.toId (e.label.getD "related")) G).hasNode m
        = true := by
  induction edges with
  | nil => intro G m h; exact h
  | cons e es ih =>
    intro G m h
    rw [List.foldl_cons]
    exact ih (hasNode_addEdge_mono _ _ _ h)

theorem foldl_addEdge_hasEdge {edges : List InputEdge} :
    ∀ {G : PyGraph} {x y : ℕ}, G.hasEdge x y = true →
      (edges.foldl (fun G e => addEdge G e.fromId e.toId (e.label.getD "related")) G).hasEdge x y
        = true := by
  induction edges with
  | nil => intro G x y h; exact h
  | cons e es ih =>
    intro G x y h
    rw [List.foldl_cons]
    exact ih (hasEdge_addEdge_mono _ _ _ h)

theorem build_contains_edge_endpoints {nodes : List InputNode} {edges : List InputEdge}
    {e : InputEdge} (he : e ∈ edges) :
    (build_networkx_graph nodes edges).hasNode e.fromId = true ∧
    (build_networkx_graph nodes edges).hasNode e.toId = true ∧
    (build_networkx_graph nodes edges).hasEdge e.fromId e.toId = true := by
  rw [build_networkx_graph]
  generalize (nodes.foldl
    (fun G n => addNode G n.id (some n.label) (some (n.type.getD "UNKNOWN")))
    (⟨[], []⟩ : PyGraph)) = G0
  induction edges generalizing G0 with
  | nil => cases he
  | cons e' es ih =>
    rw [List.foldl_cons]
    rcases List.mem_cons.1 he with rfl | he
    · refine ⟨foldl_addEdge_hasNode (hasNode_addEdge_self_left G0 _ _ _),
        foldl_addEdge_hasNode (hasNode_addEdge_self_right G0 _ _ _),
        foldl_addEdge_hasEdge (hasEdge_addEdge_self G0 _ _ _)⟩
    · exact ih he _

/-- Claim C1, counterexample.  The claim says an input whose edge list
references a node id absent from the node list fails graph construction
with `MalformedInputError`, aborts, and produces no gap list.  On the
concrete malformed input `sampleNodes` / `sampleEdgesUnknown` (edge
`(7,8)` references unknown ids 7 and 8) the code instead silently adds
node 7 during construction and the full pipeline completes, producing one
gap. -/
theorem C1_counterexample :
    edgeRefsUnknown sampleNodes sampleEdgesUnknown = true ∧
    (build_networkx_graph sampleNodes sampleEdgesUnknown).hasNode 7 = true ∧
    gapsProduced (run_analysis envNone sampleNodes sampleEdgesUnknown) = 1 := by
  refine ⟨by decide, by decide, ?_⟩
  decide

/-- Claim C1, amended.  Graph construction never rejects an edge whose
endpoints are absent from the node list: for every input and every edge of
it, both endpoints end up as nodes of the built graph and the edge itself
is present — `add_edge` silently inserts missing endpoints, no
`MalformedInputError` exists, and the computation proceeds. -/
theorem C1_build_never_rejects {nodes : List InputNode} {edges : List InputEdge}
    {e : InputEdge} (he : e ∈ edges) :
    (build_networkx_graph nodes edges).hasNode e.fromId = true ∧
    (build_networkx_graph nodes edges).hasNode e.toId = true ∧
    (build_networkx_graph nodes edges).hasEdge e.fromId e.toId = true :=
  build_contains_edge_endpoints he

/-- Claim C1, witness for the amended theorem: the unknown-endpoint edge
`(7, 8)` of `sampleEdgesUnknown` is accepted and both endpoints become
nodes. -/
theorem C1_build_never_rejects_witness :
    (build_networkx_graph sampleNodes sampleEdgesUnknown).hasNode
        (InputEdge.fromId ⟨7, 8, none⟩) = true ∧
    (build_networkx_graph sampleNodes sampleEdgesUnknown).hasNode
        (InputEdge.toId ⟨7, 8, none⟩) = true ∧
    (build_networkx_graph sampleNodes sampleEdgesUnknown).hasEdge
        (InputEdge.fromId ⟨7, 8, none⟩) (InputEdge.toId ⟨7, 8, none⟩) = true :=
  C1_build_never_rejects (by decide)

/-- Claim C5: an input with fewer than 5 nodes or fewer than 2 edges
short-circuits to the "too small" result — empty gap list, the explanatory
message, zero counts — regardless of the environment (so no graph
algorithm can influence the outcome), and no error is signalled. -/
theorem C5_too_small_short_circuit (env : Env) (nodes : List InputNode)
    (edges : List InputEdge) (h : nodes.length < 5 ∨ edges.length < 2) :
    run_analysis env nodes edges =
      .tooSmall [] "Graph too small for gap analysis (need 5+ nodes, 2+ edges)" 0 0 := by
  have hcond : (nodes.length < 5 || edges.length < 2) = true := by
    rcases h with h | h <;> simp [h]
  rw [run_analysis, if_pos hcond]

/-- Claim C5, witness: the 4-node / 3-edge Scenario A graph yields the
"too small" result. -/
theorem C5_too_small_short_circuit_witness :
    run_analysis envNone tinyNodes tinyEdges =
      .tooSmall [] "Graph too small for gap analysis (need 5+ nodes, 2+ edges)" 0 0 :=
  C5_too_small_short_circuit envNone tinyNodes tinyEdges (by decide)

/-- Claim C6, counterexample.  The claim says community detection falls
back to connected components whenever the primary optimizer is unavailable
*or fails internally (throws)*, and the computation continues.  When the
optimizer is available but throws, the exception is not caught: it
propagates out of `detect_communities` and aborts the whole run with a
`PYTHON ERROR`. -/
theorem C6_counterexample :
    detect_communities ⟨true, fun _ => .error "boom"⟩ sampleGraph = .error "boom" ∧
    run_analysis ⟨⟨true, fun _ => .error "boom"⟩, ⟨false, fun _ _ => .error "unavailable"⟩⟩
        sampleNodes sampleEdgesBridge = .pythonError "boom" := by
  constructor
  · rfl
  · rfl

/-- Claim C6, amended.  Only when the primary modularity optimizer is
unavailable (the louvain import failed) does community detection fall back
to assigning each node the index of its connected component; the fallback
assignment covers every node of the graph (a valid partition) and the
computation continues with an `.ok` result. -/
theorem C6_fallback_when_unavailable (C : CommunityDetector) (G : PyGraph)
    (h : C.available = false) :
    detect_communities C G = .ok (connected_component_partition G) ∧
    partitionCovers (connected_component_partition G) G = true := by
  constructor
  · rw [detect_communities, h]
    rfl
  · rw [partitionCovers, List.all_eq_true]
    intro p hp
    have : ((connected_component_partition G).lookup p.id).isSome :=
      connected_component_partition_covers (List.mem_map.2 ⟨p, hp, rfl⟩)
    simpa using this

/-- Claim C6, witness for the amended theorem: with the louvain library
unavailable, detection on `sampleGraph` returns the component partition,
which covers all nodes. -/
theorem C6_fallback_when_unavailable_witness :
    detect_communities envNone.community sampleGraph =
      .ok (connected_component_partition sampleGraph) ∧
    partitionCovers (connected_component_partition sampleGraph) sampleGraph = true :=
  C6_fallback_when_unavailable envNone.community sampleGraph (by decide)

/-- Claim C7: whenever the semantic scorer is unavailable or its
invocation raises, the semantic distance used is the constant default
`0.5`; the failure is absorbed (the function totally returns a value, so
the surrounding gap computation never aborts because of it). -/
theorem C7_semantic_default (S : SemanticScorer) (kw1 kw2 : List String) (msg : String)
    (h : S.available = false ∨ S.score kw1 kw2 = .error msg) :
    calculate_semantic_distance S kw1 kw2 = 1/2 := by
  rcases h with h | h
  · simp [calculate_semantic_distance, h]
  · rw [calculate_semantic_distance]
    split
    · rfl
    · rw [h]

/-- Claim C7, witness: an unavailable scorer yields distance `1/2`. -/
theorem C7_semantic_default_witness :
    calculate_semantic_distance ⟨false, fun _ _ => .error "unavailable"⟩ ["A"] ["B"] = 1/2 :=
  C7_semantic_default ⟨false, fun _ _ => .error "unavailable"⟩ ["A"] ["B"] "unavailable"
    (Or.inl rfl)

theorem addNodeBare_edges (G : PyGraph) (n : ℕ) : (addNodeBare G n).edges = G.edges := by
  rw [addNodeBare]
  split <;> rfl

theorem addNode_edges (G : PyGraph) (n : ℕ) (lab ty : Option String) :
    (addNode G n lab ty).edges = G.edges := by
  rw [addNode]
  split <;> rfl

theorem sameUnordered_label_update (x y : PyEdge) (a b : ℕ) (lab : String) :
    sameUnordered (if edgeMatches x a b then { x with label := lab } else x)
        (if edgeMatches y a b then { y with label := lab } else y)
      = sameUnordered x y := by
  split <;> split <;> rfl

theorem edgesWellFormed_label_map {es : List PyEdge} (a b : ℕ) (lab : String)
    (hwf : edgesWellFormed es = true) :
    edgesWellFormed
      (es.map (fun e => if edgeMatches e a b then { e with label := lab } else e))
      = true := by
  induction es with
  | nil => rfl
  | cons x xs ih =>
    obtain ⟨hall, hwf'⟩ := edgesWellFormed_cons hwf
    rw [List.map_cons, edgesWellFormed, Bool.and_eq_true, List.all_eq_true]
    refine ⟨?_, ih hwf'⟩
    intro e' he'
    rcases List.mem_map.1 he' with ⟨y, hy, rfl⟩
    rw [Bool.not_eq_true', sameUnordered_label_update]
    exact hall y hy

theorem edgesWellFormed_append {es : List PyEdge} {e : PyEdge}
    (hwf : edgesWellFormed es = true)
    (hnew : ∀ e' ∈ es, sameUnordered e' e = false) :
    edgesWellFormed (es ++ [e]) = true := by
  induction es with
  | nil => rfl
  | cons x xs ih =>
    obtain ⟨hall, hwf'⟩ := edgesWellFormed_cons hwf
    rw [List.cons_append, edgesWellFormed, Bool.and_eq_true, List.all_eq_true]
    constructor
    · intro e' he'
      rcases List.mem_append.1 he' with h | h
      · simpa using hall e' h
      · rcases List.mem_singleton.1 h with rfl
        rw [Bool.not_eq_true']
        exact hnew x (List.mem_cons_self x xs)
    · exact ih hwf' (fun e' he' => hnew e' (List.mem_cons_of_mem x he'))

theorem edgesWellFormed_addEdge {G : PyGraph} (a b : ℕ) (lab : String)
    (h : edgesWellFormed G.edges = true) :
    edgesWellFormed (addEdge G a b lab).edges = true := by
  rw [addEdge]
  have hG1 : (addNodeBare (addNodeBare G a) b).edges = G.edges := by
    rw [addNodeBare_edges, addNodeBare_edges]
  split
  case isTrue =>
    dsimp only
    rw [hG1]
    exact edgesWellFormed_label_map a b lab h
  case isFalse hne =>
    dsimp only
    rw [hG1]
    refine edgesWellFormed_append h ?_
    intro e' he'
    rw [PyGraph.hasEdge, hG1] at hne
    rcases hm : sameUnordered e' ⟨a, b, lab⟩ with _ | _
    · rfl
    · exfalso
      apply hne
      rw [hasEdgeL, List.any_eq_true]
      exact ⟨e', he', hm⟩

/-- Every graph built by `build_networkx_graph` satisfies the simple-graph
invariant assumed by `C2_connectivity_gap_score`: no two stored edges join
the same unordered endpoint pair (`add_edge` is an idempotent insert). -/
theorem build_edgesWellFormed (nodes : List InputNode) (edges : List InputEdge) :
    edgesWellFormed (build_networkx_graph nodes edges).edges = true := by
  rw [build_networkx_graph]
  have hnode : (nodes.foldl
      (fun G n => addNode G n.id (some n.label) (some (n.type.getD "UNKNOWN")))
      (⟨[], []⟩ : PyGraph)).edges = [] := by
    generalize hacc : (⟨[], []⟩ : PyGraph) = acc
    have hacc' : acc.edges = [] := by rw [← hacc]
    clear hacc
    induction nodes generalizing acc with
    | nil => exact hacc'
    | cons n ns ih =>
      rw [List.foldl_cons]
      exact ih _ (by rw [addNode_edges]; exact hacc')
  generalize hG0 : (nodes.foldl
      (fun G n => addNode G n.id (some n.label) (some (n.type.getD "UNKNOWN")))
      (⟨[], []⟩ : PyGraph)) = G0
  rw [hG0] at hnode
  have hwf0 : edgesWellFormed G0.edges = true := by rw [hnode]; rfl
  clear hnode hG0
  induction edges generalizing G0 with
  | nil => exact hwf0
  | cons e es ih =>
    rw [List.foldl_cons]
    exact ih _ (edgesWellFormed_addEdge _ _ _ hwf0)

theorem community_members_nodup {communities : List (ℕ × ℕ)}
    (hkeys : (communities.map (fun p => p.1)).Nodup) (c : ℕ) :
    (community_members communities c).Nodup := by
  rw [community_members]
  exact List.Nodup.sublist (List.Sublist.map _ (List.filter_sublist communities)) hkeys

theorem community_members_disjoint {communities : List (ℕ × ℕ)}
    (hkeys : (communities.map (fun p => p.1)).Nodup) {c1 c2 : ℕ} (hne : c1 ≠ c2) :
    ∀ x ∈ community_members communities c1, x ∉ community_members communities c2 := by
  intro x hx1 hx2
  rw [community_members] at hx1 hx2
  rcases List.mem_map.1 hx1 with ⟨p, hp, rfl⟩
  rcases List.mem_map.1 hx2 with ⟨q, hq, hqx⟩
  have hpq : q = p :=
    List.inj_on_of_nodup_map hkeys (List.mem_of_mem_filter hq)
      (List.mem_of_mem_filter hp) hqx
  have hp2 : p.2 = c1 := by simpa using (List.mem_filter.1 hp).2
  have hq2 : q.2 = c2 := by simpa using (List.mem_filter.1 hq).2
  rw [hpq] at hq2
  exact hne (hp2.symm.trans hq2)

/-- Claim C2: for a community pair `c1 < c2` that passes the
`min_cluster_size` filter (so that a record is computed and emitted), the
emitted record satisfies `connectivity = inter_edges / (|nodes_1| *
|nodes_2|)` (0 when the denominator is 0) and `gap_score = |nodes_1| *
|nodes_2| * (1 − connectivity) * (1 + semantic_distance)`, where
`inter_edges` is the number of graph edges with one endpoint in each
community (assuming distinct dictionary keys and a duplicate-free edge
set, both guaranteed by the pipeline). -/
theorem C2_connectivity_gap_score {S : SemanticScorer} {G : PyGraph}
    {communities : List (ℕ × ℕ)} {betweenness : List (ℕ × ℚ)} {mcs c1 c2 : ℕ}
    {gs : List Gap} {g : Gap}
    (hkeys : (communities.map (fun p => p.1)).Nodup)
    (hwf : edgesWellFormed G.edges = true)
    (hlt : c1 < c2)
    (h : gapForPair S G communities betweenness mcs c1 c2 = some gs)
    (hg : g ∈ gs) :
    g.potential_connections = cross_edge_count G g.nodes_1 g.nodes_2 ∧
    g.connectivity = (if g.nodes_1.length * g.nodes_2.length = 0 then 0
      else (cross_edge_count G g.nodes_1 g.nodes_2 : ℚ) /
        ((g.nodes_1.length * g.nodes_2.length : ℕ) : ℚ)) ∧
    g.gap_score = ((g.nodes_1.length * g.nodes_2.length : ℕ) : ℚ) *
      (1 - g.connectivity) * (1 + g.semantic_distance) := by
  obtain ⟨-, -, -, -, hn1, hn2, -, -, -, hpc, hconn, -, hscore, -⟩ := gapForPair_mem h hg
  have hcross : count_edges_between G g.nodes_1 g.nodes_2
      = cross_edge_count G g.nodes_1 g.nodes_2 := by
    rw [hn1, hn2]
    exact count_edges_between_eq_cross G _ (community_members_nodup hkeys c1) _
      (community_members_nodup hkeys c2) (community_members_disjoint hkeys hlt.ne) hwf
  refine ⟨by rw [hpc, hcross], ?_, hscore⟩
  rw [hconn, hpc, hcross]
  rcases Nat.eq_zero_or_pos (g.nodes_1.length * g.nodes_2.length) with hz | hpos
  · rw [hz]
    simp
  · rw [if_pos hpos, if_neg (Nat.pos_iff_ne_zero.1 hpos)]

/-- Claim C2, witness: the pair `(0, 1)` of `sampleGraph` under
`samplePartition` emits `sampleGap` with `connectivity = 1/9` and
`gap_score = 12`, matching the formulas. -/
theorem C2_connectivity_gap_score_witness :
    sampleGap.potential_connections =
      cross_edge_count sampleGraph sampleGap.nodes_1 sampleGap.nodes_2 ∧
    sampleGap.connectivity = (if sampleGap.nodes_1.length * sampleGap.nodes_2.length = 0
      then 0
      else (cross_edge_count sampleGraph sampleGap.nodes_1 sampleGap.nodes_2 : ℚ) /
        ((sampleGap.nodes_1.length * sampleGap.nodes_2.length : ℕ) : ℚ)) ∧
    sampleGap.gap_score = ((sampleGap.nodes_1.length * sampleGap.nodes_2.length : ℕ) : ℚ) *
      (1 - sampleGap.connectivity) * (1 + sampleGap.semantic_distance) :=
  @C2_connectivity_gap_score envNone.semantic sampleGraph samplePartition [] 3 0 1
    [sampleGap] sampleGap (by decide) (by decide) (by decide) (by decide)
    (List.mem_singleton.2 rfl)

/-- Claim C3: the list returned by `find_structural_gaps` is sorted by
`gap_score` descending with ties broken by `(community_1, community_2)`
ascending (via stability of the sort over the ascending pair enumeration),
and has at most `max_gaps` entries. -/
theorem C3_sorted_truncated {S : SemanticScorer} {G : PyGraph}
    {communities : List (ℕ × ℕ)} {betweenness : List (ℕ × ℚ)} {mcs mg : ℕ}
    {gaps : List Gap}
    (h : find_structural_gaps S G communities betweenness mcs mg = some gaps) :
    gaps.length ≤ mg ∧ gaps.Pairwise (fun a b =>
      b.gap_score < a.gap_score ∨ (a.gap_score = b.gap_score ∧
        (a.community_1 < b.community_1 ∨
          (a.community_1 = b.community_1 ∧ a.community_2 < b.community_2)))) :=
  find_structural_gaps_sorted h

/-- Claim C3, witness: the sample run returns the single-gap list
`[sampleGap]`, trivially sorted and within the 10-entry bound. -/
theorem C3_sorted_truncated_witness :
    ([sampleGap] : List Gap).length ≤ 10 ∧ ([sampleGap] : List Gap).Pairwise (fun a b =>
      b.gap_score < a.gap_score ∨ (a.gap_score = b.gap_score ∧
        (a.community_1 < b.community_1 ∨
          (a.community_1 = b.community_1 ∧ a.community_2 < b.community_2)))) :=
  @C3_sorted_truncated envNone.semantic sampleGraph samplePartition [] 3 10 [sampleGap]
    (by decide)

/-- Claim C4, counterexample.  The claim says bridge-node ties are broken
by ascending node id.  With the centrality table `[(2, 1), (1, 1)]` (two
tied scores, node 2 listed first) the code returns `[2, 1]` — the stable
sort keeps the table's iteration order — while the claimed ordering would
return `[1, 2]`. -/
theorem C4_counterexample :
    find_bridge_nodes ([(2, 1), (1, 1)] : List (ℕ × ℚ)) [1] [2] 3 = [2, 1] ∧
    find_bridge_nodes_specOrder ([(2, 1), (1, 1)] : List (ℕ × ℚ)) [1] [2] 3 = [1, 2] ∧
    ([2, 1] : List ℕ) ≠ [1, 2] :=
  ⟨by decide, by decide, by decide⟩

/-- Claim C4, amended.  `find_bridge_nodes` returns the centrality table
restricted to `nodes_1 ∪ nodes_2`, stably sorted by score descending —
ties keep the table's own order (`r` below), not ascending node id — and
truncated to `top_n`; the result is a subset of `nodes_1 ∪ nodes_2` of
size at most `top_n`, and an empty table yields an empty list rather than
an error. -/
theorem C4_bridge_order {bc : List (ℕ × ℚ)} {n1 n2 : List ℕ} {topn : ℕ}
    {r : ℕ × ℚ → ℕ × ℚ → Prop} (hr : bc.Pairwise r) :
    (find_bridge_nodes bc n1 n2 topn).all (fun x => (n1 ++ n2).contains x) = true ∧
    (find_bridge_nodes bc n1 n2 topn).length ≤ topn ∧
    find_bridge_nodes bc n1 n2 topn =
      ((bridge_candidates bc n1 n2).take topn).map (fun p => p.1) ∧
    (bridge_candidates bc n1 n2).Pairwise
      (fun p q => q.2 < p.2 ∨ (p.2 = q.2 ∧ r p q)) ∧
    find_bridge_nodes [] n1 n2 topn = [] := by
  refine ⟨?_, find_bridge_nodes_length bc n1 n2 topn, rfl,
    bridge_candidates_sorted n1 n2 hr, ?_⟩
  swap
  · simp [find_bridge_nodes, bridge_candidates, sortLe, List.take_nil]
  rw [List.all_eq_true]
  intro x hx
  exact List.elem_iff.2 (find_bridge_nodes_subset hx)

/-- Claim C4, witness for the amended theorem, at the tied table
`[(2, 1), (1, 1)]` whose iteration order is `r` (first component
descending). -/
theorem C4_bridge_order_witness :
    (find_bridge_nodes ([(2, 1), (1, 1)] : List (ℕ × ℚ)) [1] [2] 3).all
        (fun x => ([1] ++ [2]).contains x) = true ∧
    (find_bridge_nodes ([(2, 1), (1, 1)] : List (ℕ × ℚ)) [1] [2] 3).length ≤ 3 ∧
    find_bridge_nodes ([(2, 1), (1, 1)] : List (ℕ × ℚ)) [1] [2] 3 =
      ((bridge_candidates ([(2, 1), (1, 1)] : List (ℕ × ℚ)) [1] [2]).take 3).map
        (fun p => p.1) ∧
    (bridge_candidates ([(2, 1), (1, 1)] : List (ℕ × ℚ)) [1] [2]).Pairwise
      (fun p q => q.2 < p.2 ∨ (p.2 = q.2 ∧ q.1 < p.1)) ∧
    find_bridge_nodes ([] : List (ℕ × ℚ)) [1] [2] 3 = [] :=
  @C4_bridge_order [(2, 1), (1, 1)] [1] [2] 3 (fun p q => q.1 < p.1) (by decide)

/-- Claim C8: every gap record emitted by `find_structural_gaps` has
`0 ≤ connectivity < 0.2`, strictly ordered communities
`community_1 < community_2`, and both member lists of size at least
`min_cluster_size`. -/
theorem C8_gap_invariants {S : SemanticScorer} {G : PyGraph}
    {communities : List (ℕ × ℕ)} {betweenness : List (ℕ × ℚ)} {mcs mg : ℕ}
    {gaps : List Gap} {g : Gap}
    (h : find_structural_gaps S G communities betweenness mcs mg = some gaps)
    (hg : g ∈ gaps) :
    0 ≤ g.connectivity ∧ g.connectivity < 1/5 ∧ g.community_1 < g.community_2 ∧
    mcs ≤ g.nodes_1.length ∧ mcs ≤ g.nodes_2.length := by
  rcases find_structural_gaps_mem h hg with ⟨p, hp, gs, hfp, hggs⟩
  obtain ⟨hm1, hm2, hc1, hc2, hn1, hn2, -, -, -, -, hconn, hlt5, -, -⟩ :=
    gapForPair_mem hfp hggs
  have hp' : (p.1, p.2) ∈ communityPairs communities := by
    rcases p with ⟨a, b⟩
    exact hp
  refine ⟨?_, hlt5, ?_, ?_, ?_⟩
  · rw [hconn]
    split
    · exact div_nonneg (Nat.cast_nonneg _) (Nat.cast_nonneg _)
    · exact le_refl 0
  · rw [hc1, hc2]
    exact communityPairs_lt hp'
  · rw [hn1]
    exact hm1
  · rw [hn2]
    exact hm2

/-- Claim C8, witness: the sample run's emitted gap meets all the
invariants (`connectivity = 1/9 ∈ [0, 0.2)`, communities `0 < 1`, member
lists of size `3 ≥ 3`). -/
theorem C8_gap_invariants_witness :
    0 ≤ sampleGap.connectivity ∧ sampleGap.connectivity < 1/5 ∧
    sampleGap.community_1 < sampleGap.community_2 ∧
    3 ≤ sampleGap.nodes_1.length ∧ 3 ≤ sampleGap.nodes_2.length :=
  @C8_gap_invariants envNone.semantic sampleGraph samplePartition [] 3 10
    [sampleGap] sampleGap (by decide) (List.mem_singleton.2 rfl)

/-- Claim C10: when every community member is a graph node carrying a
`label` attribute (which holds whenever all edge endpoints appear in the
node list and the partition maps the graph's nodes), every emitted gap
carries two keyword lists of between 1 and 5 labels drawn from the
corresponding community's node labels, and `generate_gap_insights` —
which reads the first element of each list — succeeds. -/
theorem C10_keywords_bounded {S : SemanticScorer} {G : PyGraph}
    {communities : List (ℕ × ℕ)} {betweenness : List (ℕ × ℚ)} {mcs mg : ℕ}
    {gaps : List Gap} {g : Gap}
    (hmcs : 1 ≤ mcs)
    (hlab : communities.all (fun p => (G.nodeLabel p.1).isSome) = true)
    (h : find_structural_gaps S G communities betweenness mcs mg = some gaps)
    (hg : g ∈ gaps) :
    (1 ≤ g.cluster_1_keywords.length ∧ g.cluster_1_keywords.length ≤ 5) ∧
    (1 ≤ g.cluster_2_keywords.length ∧ g.cluster_2_keywords.length ≤ 5) ∧
    g.cluster_1_keywords.all
      (fun kw => g.nodes_1.any (fun n => G.nodeLabel n = some kw)) = true ∧
    g.cluster_2_keywords.all
      (fun kw => g.nodes_2.any (fun n => G.nodeLabel n = some kw)) = true ∧
    (generate_gap_insights g G).isSome = true := by
  rcases find_structural_gaps_mem h hg with ⟨p, hp, gs, hfp, hggs⟩
  obtain ⟨hm1, hm2, -, -, hn1, hn2, hkw1, hkw2, -, -, -, -, -, hbr⟩ :=
    gapForPair_mem hfp hggs
  have hlabmem : ∀ c, ∀ n ∈ community_members communities c, (G.nodeLabel n).isSome := by
    intro c n hn
    rw [community_members] at hn
    rcases List.mem_map.1 hn with ⟨q, hq, rfl⟩
    simpa using (List.all_eq_true.1 hlab) q (List.mem_of_mem_filter hq)
  have hlab1 : ∀ n ∈ g.nodes_1, (G.nodeLabel n).isSome := by
    rw [hn1]
    exact hlabmem p.1
  have hlab2 : ∀ n ∈ g.nodes_2, (G.nodeLabel n).isSome := by
    rw [hn2]
    exact hlabmem p.2
  obtain ⟨hlen1, hfrom1⟩ := get_cluster_keywords_spec hkw1 hlab1
  obtain ⟨hlen2, hfrom2⟩ := get_cluster_keywords_spec hkw2 hlab2
  have hsz1 : 1 ≤ g.nodes_1.length := by
    rw [hn1]
    exact le_trans hmcs hm1
  have hsz2 : 1 ≤ g.nodes_2.length := by
    rw [hn2]
    exact le_trans hmcs hm2
  have hall1 : g.cluster_1_keywords.all
      (fun kw => g.nodes_1.any (fun n => G.nodeLabel n = some kw)) = true := by
    rw [List.all_eq_true]
    intro kw hkw
    rcases hfrom1 kw hkw with ⟨n, hn, heq⟩
    exact List.any_eq_true.2 ⟨n, hn, by simp [heq]⟩
  have hall2 : g.cluster_2_keywords.all
      (fun kw => g.nodes_2.any (fun n => G.nodeLabel n = some kw)) = true := by
    rw [List.all_eq_true]
    intro kw hkw
    rcases hfrom2 kw hkw with ⟨n, hn, heq⟩
    exact List.any_eq_true.2 ⟨n, hn, by simp [heq]⟩
  refine ⟨⟨by omega, by omega⟩, ⟨by omega, by omega⟩, hall1, hall2, ?_⟩
  refine generate_gap_insights_isSome ?_ ?_ ?_
  · exact List.length_pos.1 (by omega)
  · exact List.length_pos.1 (by omega)
  · intro n hn
    rw [hbr] at hn
    rcases List.mem_append.1 (find_bridge_nodes_subset hn) with hmem | hmem
    · exact hlab1 n hmem
    · exact hlab2 n hmem

/-- Claim C10, witness: in the sample run every community member is a
labelled node; the emitted gap's keyword lists are `["A","B","C"]` and
`["D","E","F"]` and insight generation succeeds. -/
theorem C10_keywords_bounded_witness :
    (1 ≤ sampleGap.cluster_1_keywords.length ∧ sampleGap.cluster_1_keywords.length ≤ 5) ∧
    (1 ≤ sampleGap.cluster_2_keywords.length ∧ sampleGap.cluster_2_keywords.length ≤ 5) ∧
    sampleGap.cluster_1_keywords.all
      (fun kw => sampleGap.nodes_1.any
        (fun n => sampleGraph.nodeLabel n = some kw)) = true ∧
    sampleGap.cluster_2_keywords.all
      (fun kw => sampleGap.nodes_2.any
        (fun n => sampleGraph.nodeLabel n = some kw)) = true ∧
    (generate_gap_insights sampleGap sampleGraph).isSome = true :=
  @C10_keywords_bounded envNone.semantic sampleGraph samplePartition [] 3 10
    [sampleGap] sampleGap (by decide) (by decide) (by decide)
    (List.mem_singleton.2 rfl)

end GapAnalyzer
